import Mathlib

/-!
# complex.h : a shallow embedding over exact real components

The class `complex` of `src/complex.h` holds two `long double` fields.  The
properties studied here read the two fields as exact real numbers, so the
embedding stores them in `ℝ`; `std::sqrt` is `Real.sqrt`.  Every C++ overload
becomes one Lean function whose name says which operand is the scalar:

* `op_add z n`          is `z + n`      (both complex),
* `op_add_scalar z c`   is `z + c`      (member form, scalar on the right),
* `scalar_op_add c n`   is `c + n`      (friend form, scalar on the left),
* `op_add_assign z n`   is the receiver `z` after `z += n`,

and likewise for the other operators.  Functions returning `bool` return
`Bool`, and follow the control flow of the source statement by statement.
A member that mutates its receiver returns the receiver's new value; code
that writes to a stream returns the text written.

Arithmetic on `ℝ` cannot be run, so the definitions live in a noncomputable
section; at concrete inputs they are evaluated by rewriting and `norm_num`.

Two properties are about every stored value rather than about real numbers:
which inputs make `arg()` print its notice, and which inputs the formatting
table covers.  For these, `arg()`, `operator==` and `operator<<` are embedded
a second time over `LongDouble`, the values a `long double` field can hold
(NaN, the two infinities, negative zero, and the finite values), with the
IEEE comparisons; this is the structure `complex_ld`.

Division is the division of `ℝ`.  The source divides `long double`s, where a
zero divisor yields an infinity or a NaN; no real number corresponds to
those, so every statement that depends on the value of a quotient assumes a
nonzero divisor.
-/

noncomputable section

namespace ComplexH

/-- The class `complex` (complex.h:13-16): real part `re`, imaginary part `im`. -/
structure complex where
  re : ℝ
  im : ℝ

namespace complex

/-- Constructor `complex(const long double &x)` (complex.h:27): `re(x), im(0)`. -/
def ofReal (x : ℝ) : complex := ⟨x, 0⟩

/-- Member `operator-(const complex &n)` (complex.h:52-55). -/
def op_sub (z n : complex) : complex := ⟨z.re - n.re, z.im - n.im⟩

/-- Member `operator+(const complex &n)` (complex.h:66-69). -/
def op_add (z n : complex) : complex := ⟨z.re + n.re, z.im + n.im⟩

/-- Member `operator*(const complex &n)` (complex.h:80-83). -/
def op_mul (z n : complex) : complex :=
  ⟨z.re * n.re - z.im * n.im, z.re * n.im + z.im * n.re⟩

/-- Member `operator/(const complex &n)` (complex.h:95-98). -/
def op_div (z n : complex) : complex :=
  ⟨(z.re * n.re + z.im * n.im) / (n.re * n.re + n.im * n.im),
   (z.im * n.re - z.re * n.im) / (n.re * n.re + n.im * n.im)⟩

/-- Member `operator~()` (complex.h:110-113). -/
def op_conj (z : complex) : complex := ⟨z.re, -z.im⟩

/-- Member `operator*(const long double &c)` (complex.h:129-132). -/
def op_mul_scalar (z : complex) (c : ℝ) : complex := ⟨z.re * c, z.im * c⟩

/-- Friend `operator*(const long double &c, const complex &n)` (complex.h:136-139):
`return n*c;`. -/
def scalar_op_mul (c : ℝ) (n : complex) : complex := op_mul_scalar n c

/-- Member `operator/(const long double &c)` (complex.h:152-155). -/
def op_div_scalar (z : complex) (c : ℝ) : complex := ⟨z.re / c, z.im / c⟩

/-- Friend `operator/(const long double &c, const complex &n)` (complex.h:159-162). -/
def scalar_op_div (c : ℝ) (n : complex) : complex :=
  ⟨(c * n.re) / (n.re * n.re + n.im * n.im),
   (-n.im * c) / (n.re * n.re + n.im * n.im)⟩

/-- Member `operator+(const long double &c)` (complex.h:175-178). -/
def op_add_scalar (z : complex) (c : ℝ) : complex := ⟨z.re + c, z.im⟩

/-- Friend `operator+(const long double &c, const complex &n)` (complex.h:182-185). -/
def scalar_op_add (c : ℝ) (n : complex) : complex := ⟨n.re + c, n.im⟩

/-- Member `operator-(const long double &c)` (complex.h:197-200). -/
def op_sub_scalar (z : complex) (c : ℝ) : complex := ⟨z.re - c, z.im⟩

/-- Friend `operator-(const long double &c, const complex &n)` (complex.h:204-207). -/
def scalar_op_sub (c : ℝ) (n : complex) : complex := ⟨c - n.re, -n.im⟩

/-- Member `abs()` (complex.h:225-228): `std::sqrt(re*re+im*im)`. -/
def abs (z : complex) : ℝ := Real.sqrt (z.re * z.re + z.im * z.im)

/-- Member `operator==(const complex &n)` (complex.h:281-284). -/
def op_eq (z n : complex) : Bool := decide (z.re = n.re) && decide (z.im = n.im)

/-- Member `operator>(const complex &n)` (complex.h:293-310). -/
def op_gt (z n : complex) : Bool :=
  let absValueThis := z.abs
  let absValueN := n.abs
  if absValueThis > absValueN then true
  else if absValueThis = absValueN then
    if z.re > n.re then true
    else if z.re = n.re then
      if z.im > n.im then true else false
    else false
  else false

/-- Member `operator>=(const complex &n)` (complex.h:313-316). -/
def op_ge (z n : complex) : Bool := decide (z.abs ≥ n.abs)

/-- Member `operator<(const complex &n)` (complex.h:319-336). -/
def op_lt (z n : complex) : Bool :=
  let absValueThis := z.abs
  let absValueN := n.abs
  if absValueThis < absValueN then true
  else if absValueThis = absValueN then
    if z.re < n.re then true
    else if z.re = n.re then
      if z.im < n.im then true else false
    else false
  else false

/-- Member `operator<=(const complex &n)` (complex.h:339-342). -/
def op_le (z n : complex) : Bool := decide (z.abs ≤ n.abs)

/-- Member `operator>(const long double &c)` (complex.h:362-379). -/
def op_gt_scalar (z : complex) (c : ℝ) : Bool :=
  let absValue := z.abs
  let absValueC := if c > 0 then c else -c
  if absValue > absValueC then true
  else if absValue = absValueC then
    if z.re > c then true
    else if z.re = c then
      if z.im > 0 then true else false
    else false
  else false

/-- Member `operator>=(const long double &c)` (complex.h:382-385). -/
def op_ge_scalar (z : complex) (c : ℝ) : Bool := decide (z.re ≥ c) && decide (z.im ≥ 0)

/-- Member `operator<(const long double &c)` (complex.h:388-405). -/
def op_lt_scalar (z : complex) (c : ℝ) : Bool :=
  let absValue := z.abs
  let absValueC := if c > 0 then c else -c
  if absValue < absValueC then true
  else if absValue = absValueC then
    if z.re < c then true
    else if z.re = c then
      if z.im < 0 then true else false
    else false
  else false

/-- Member `operator<=(const long double &c)` (complex.h:408-411). -/
def op_le_scalar (z : complex) (c : ℝ) : Bool := decide (z.re ≤ c) && decide (z.im ≤ 0)

/-- Friend `operator>(const long double &c, const complex &n)` (complex.h:431-448). -/
def scalar_op_gt (c : ℝ) (n : complex) : Bool :=
  let absValueN := n.abs
  let absValueC := if c > 0 then c else -c
  if absValueC > absValueN then true
  else if absValueC = absValueN then
    if c > n.re then true
    else if c = n.re then
      if 0 > n.im then true else false
    else false
  else false

/-- Friend `operator>=(long double c, const complex &n)` (complex.h:451-455):
the by-value parameter `c` is overwritten with its absolute value first. -/
def scalar_op_ge (c : ℝ) (n : complex) : Bool :=
  let c := if c > 0 then c else -c
  decide (c ≥ n.abs)

/-- Friend `operator<(const long double &c, const complex &n)` (complex.h:458-475). -/
def scalar_op_lt (c : ℝ) (n : complex) : Bool :=
  let absValueN := n.abs
  let absValueC := if c > 0 then c else -c
  if absValueC < absValueN then true
  else if absValueC = absValueN then
    if c < n.re then true
    else if c = n.re then
      if 0 < n.im then true else false
    else false
  else false

/-- Friend `operator<=(long double c, const complex &n)` (complex.h:478-482). -/
def scalar_op_le (c : ℝ) (n : complex) : Bool :=
  let c := if c > 0 then c else -c
  decide (c ≤ n.abs)

/-- Member `operator-=(const complex &n)` (complex.h:58-63): the receiver
after the two assignments. -/
def op_sub_assign (z n : complex) : complex :=
  let re := z.re - n.re
  let im := z.im - n.im
  ⟨re, im⟩

/-- Member `operator+=(const complex &n)` (complex.h:72-77). -/
def op_add_assign (z n : complex) : complex :=
  let re := z.re + n.re
  let im := z.im + n.im
  ⟨re, im⟩

/-- Member `operator*=(const complex &n)` (complex.h:86-92): the local `i` is
computed first, then `re` is overwritten, then `im` receives `i`. -/
def op_mul_assign (z n : complex) : complex :=
  let i := z.re * n.im + z.im * n.re
  let re := z.re * n.re - z.im * n.im
  let im := i
  ⟨re, im⟩

/-- Member `operator/=(const complex &n)` (complex.h:101-107). -/
def op_div_assign (z n : complex) : complex :=
  let i := (z.im * n.re - z.re * n.im) / (n.re * n.re + n.im * n.im)
  let re := (z.re * n.re + z.im * n.im) / (n.re * n.re + n.im * n.im)
  let im := i
  ⟨re, im⟩

/-- Member `operator*=(const long double &c)` (complex.h:143-148). -/
def op_mul_assign_scalar (z : complex) (c : ℝ) : complex :=
  let re := c * z.re
  let im := c * z.im
  ⟨re, im⟩

/-- Member `operator/=(const long double &c)` (complex.h:166-171). -/
def op_div_assign_scalar (z : complex) (c : ℝ) : complex :=
  let re := z.re / c
  let im := z.im / c
  ⟨re, im⟩

/-- Member `operator+=(const long double &c)` (complex.h:189-193): only `re`
is assigned. -/
def op_add_assign_scalar (z : complex) (c : ℝ) : complex :=
  let re := z.re + c
  ⟨re, z.im⟩

/-- Member `operator-=(const long double &c)` (complex.h:211-215): only `re`
is assigned. -/
def op_sub_assign_scalar (z : complex) (c : ℝ) : complex :=
  let re := z.re - c
  ⟨re, z.im⟩

/-- The constant `M_PI` of `<cmath>`, read as the exact real number pi. -/
def M_PI : ℝ := Real.pi

/-- Member `arg()` (complex.h:231-239).  The first component is the text the
call writes to `std::cout` (empty when nothing is written), the second the
returned value; `std::atan` is `Real.arctan`. -/
def arg (z : complex) : String × ℝ :=
  if z.im ≠ 0 ∨ z.re > 0 then
    ("", 2 * Real.arctan (z.im / (z.re + Real.sqrt (z.re * z.re + z.im * z.im))))
  else if z.re < 0 then
    ("", M_PI)
  else
    ("undefined", 0)

/-- Member `sqrt()` (complex.h:272-275): both constructor arguments are
`std::sqrt( (re + abs())/2 )`. -/
def sqrt (z : complex) : complex :=
  ⟨Real.sqrt ((z.re + z.abs) / 2), Real.sqrt ((z.re + z.abs) / 2)⟩

/-- Member `operator!=(const complex &n)` (complex.h:287-290). -/
def op_ne (z n : complex) : Bool := decide (z.re ≠ n.re) || decide (z.im ≠ n.im)

/-- Member `operator==(const long double &c)` (complex.h:350-353). -/
def op_eq_scalar (z : complex) (c : ℝ) : Bool := decide (z.re = c) && decide (z.im = 0)

/-- Member `operator!=(const long double &c)` (complex.h:356-359). -/
def op_ne_scalar (z : complex) (c : ℝ) : Bool := decide (z.re ≠ c) || decide (z.im ≠ 0)

/-- Friend `operator==(const long double &c, const complex &n)` (complex.h:419-422). -/
def scalar_op_eq (c : ℝ) (n : complex) : Bool := decide (n.re = c) && decide (n.im = 0)

/-- Friend `operator!=(const long double &c, const complex &n)` (complex.h:425-428). -/
def scalar_op_ne (c : ℝ) (n : complex) : Bool := decide (n.re ≠ c) || decide (n.im ≠ 0)

end complex

open complex

/-- The values a `long double` field can hold: NaN, the two infinities,
negative zero, and the finite values.  `finite 0` is positive zero; every
real number stands for a finite value, which is more than the format has. -/
inductive LongDouble where
  | nan
  | negInf
  | posInf
  | negZero
  | finite (x : ℝ)

namespace LongDouble

/-- The number a value denotes, if any: NaN denotes none, and both zeros
denote 0. -/
def val : LongDouble → Option EReal
  | nan => none
  | negInf => some ⊥
  | posInf => some ⊤
  | negZero => some ((0 : ℝ) : EReal)
  | finite x => some (x : EReal)

/-- The built-in `a == b` on `long double`: false when either side is NaN. -/
def cmp_eq (a b : LongDouble) : Bool :=
  match a.val, b.val with
  | some x, some y => decide (x = y)
  | _, _ => false

/-- The built-in `a != b` on `long double`: the negation of `a == b`, so true
when either side is NaN. -/
def cmp_ne (a b : LongDouble) : Bool := !(cmp_eq a b)

/-- The built-in `a < b` on `long double`: false when either side is NaN. -/
def cmp_lt (a b : LongDouble) : Bool :=
  match a.val, b.val with
  | some x, some y => decide (x < y)
  | _, _ => false

/-- The built-in `a > b` on `long double`: false when either side is NaN. -/
def cmp_gt (a b : LongDouble) : Bool :=
  match a.val, b.val with
  | some x, some y => decide (x > y)
  | _, _ => false

end LongDouble

open LongDouble

/-- The arithmetic of `long double` and of `<cmath>` that `arg()` calls, and
the constant `M_PI`; the header defines none of them. -/
structure LongDoubleOps where
  add : LongDouble → LongDouble → LongDouble
  mul : LongDouble → LongDouble → LongDouble
  div : LongDouble → LongDouble → LongDouble
  sqrt : LongDouble → LongDouble
  atan : LongDouble → LongDouble
  M_PI : LongDouble

/-- The class `complex` (complex.h:13-16) with its two fields as `long double`
values, NaN and the infinities included. -/
structure complex_ld where
  re : LongDouble
  im : LongDouble

namespace complex_ld

/-- Member `operator==(const complex &n)` (complex.h:281-284) on `long double`
fields. -/
def op_eq (z n : complex_ld) : Bool := cmp_eq z.re n.re && cmp_eq z.im n.im

/-- Member `arg()` (complex.h:231-239) on `long double` fields.  The first
component is the text written to `std::cout`; the second is the returned
value, as a function of the arithmetic `ops` it is computed with.  The
integer literals `0` and `2` are converted to `long double`. -/
def arg (z : complex_ld) : String × (LongDoubleOps → LongDouble) :=
  if cmp_ne z.im (.finite 0) || cmp_gt z.re (.finite 0) then
    ("", fun ops => ops.mul (.finite 2) (ops.atan (ops.div z.im
      (ops.add z.re (ops.sqrt (ops.add (ops.mul z.re z.re) (ops.mul z.im z.im)))))))
  else if cmp_lt z.re (.finite 0) then
    ("", fun ops => ops.M_PI)
  else
    ("undefined", fun _ => .finite 0)

/-- The function `operator<<(std::ostream&, const complex&)` (complex.h:485-530):
the text appended to the stream.  Inserting a `long double` into the stream
is the parameter `fmt`; `os<<0` inserts the `int` zero, whose text is `0`. -/
def op_out (fmt : LongDouble → String) (n : complex_ld) : String :=
  if cmp_eq n.re (.finite 0) then
    if cmp_eq n.im (.finite (-1)) then "-j"
    else if cmp_eq n.im (.finite 1) then "j"
    else if cmp_eq n.im (.finite 0) then "0"
    else fmt n.im ++ "j"
  else if cmp_eq n.im (.finite 0) then fmt n.re
  else if cmp_gt n.im (.finite 0) then
    if cmp_eq n.im (.finite 1) then fmt n.re ++ "+j"
    else fmt n.re ++ "+" ++ fmt n.im ++ "j"
  else if cmp_eq n.im (.finite (-1)) then fmt n.re ++ "-j"
  else fmt n.re ++ fmt n.im ++ "j"

end complex_ld

/-- The nine rows of the formatting table of the specification (section 4.5),
top to bottom. -/
inductive SpecFormatRow where
  | zero_zero
  | zero_one
  | zero_neg_one
  | zero_other
  | re_zero
  | re_one
  | re_neg_one
  | re_pos
  | re_neg

/-- The `real` and `imaginary` columns of the formatting table: the values a
row is about, each entry read as the comparison of the stored value with the
constant.  `other y` excludes the three rows above it, and `nonzero`
qualifies the real part of the last five rows. -/
def SpecFormatRow.applies (n : complex_ld) : SpecFormatRow → Prop
  | .zero_zero => cmp_eq n.re (.finite 0) = true ∧ cmp_eq n.im (.finite 0) = true
  | .zero_one => cmp_eq n.re (.finite 0) = true ∧ cmp_eq n.im (.finite 1) = true
  | .zero_neg_one => cmp_eq n.re (.finite 0) = true ∧ cmp_eq n.im (.finite (-1)) = true
  | .zero_other => cmp_eq n.re (.finite 0) = true ∧ cmp_ne n.im (.finite 0) = true ∧
      cmp_ne n.im (.finite 1) = true ∧ cmp_ne n.im (.finite (-1)) = true
  | .re_zero => cmp_ne n.re (.finite 0) = true ∧ cmp_eq n.im (.finite 0) = true
  | .re_one => cmp_ne n.re (.finite 0) = true ∧ cmp_eq n.im (.finite 1) = true
  | .re_neg_one => cmp_ne n.re (.finite 0) = true ∧ cmp_eq n.im (.finite (-1)) = true
  | .re_pos => cmp_ne n.re (.finite 0) = true ∧ cmp_gt n.im (.finite 0) = true ∧
      cmp_ne n.im (.finite 1) = true
  | .re_neg => cmp_ne n.re (.finite 0) = true ∧ cmp_lt n.im (.finite 0) = true ∧
      cmp_ne n.im (.finite (-1)) = true

/-- The `output` column of the formatting table, for a scalar formatter `fmt`. -/
def SpecFormatRow.output (fmt : LongDouble → String) (n : complex_ld) : SpecFormatRow → String
  | .zero_zero => "0"
  | .zero_one => "j"
  | .zero_neg_one => "-j"
  | .zero_other => fmt n.im ++ "j"
  | .re_zero => fmt n.re
  | .re_one => fmt n.re ++ "+j"
  | .re_neg_one => fmt n.re ++ "-j"
  | .re_pos => fmt n.re ++ "+" ++ fmt n.im ++ "j"
  | .re_neg => fmt n.re ++ fmt n.im ++ "j"

/-! ## Shared lemmas -/

/-- The test `operator==` succeeds exactly when both components agree. -/
theorem op_eq_iff (z n : complex) : op_eq z n = true ↔ z.re = n.re ∧ z.im = n.im := by
  simp [op_eq]

/-- Both components of equal-by-`operator==` values agree, as a value equation. -/
theorem op_eq_iff_eq (z n : complex) : op_eq z n = true ↔ z = n := by
  rw [op_eq_iff]
  cases z; cases n
  simp

/-- The sum of the squared components is never negative. -/
theorem normSq_nonneg (z : complex) : 0 ≤ z.re * z.re + z.im * z.im :=
  add_nonneg (mul_self_nonneg _) (mul_self_nonneg _)

/-- The sum of the squared components vanishes only at `(0,0)`. -/
theorem normSq_ne_zero (z : complex) (h : z ≠ ⟨0, 0⟩) : z.re * z.re + z.im * z.im ≠ 0 := by
  intro h0
  apply h
  have h1 : z.re * z.re = 0 := by nlinarith [mul_self_nonneg z.re, mul_self_nonneg z.im]
  have h2 : z.im * z.im = 0 := by nlinarith [mul_self_nonneg z.re, mul_self_nonneg z.im]
  cases z
  simp only [mul_self_eq_zero] at h1 h2
  simp [h1, h2]

/-- The source's `c>0?c:-c` is the absolute value of the real `c`. -/
theorem ite_pos_eq_abs (c : ℝ) : (if c > 0 then c else -c) = |c| := by
  split_ifs with h
  · exact (abs_of_pos h).symm
  · exact (abs_of_nonpos (not_lt.mp h)).symm

/-- The magnitude of the promoted scalar `complex(c, 0)` is what the scalar
comparisons compute as `c>0?c:-c`. -/
theorem abs_ofReal (c : ℝ) : (ofReal c).abs = if c > 0 then c else -c := by
  rw [ite_pos_eq_abs]
  simp only [complex.abs, ofReal, mul_zero, add_zero]
  exact Real.sqrt_mul_self_eq_abs c

/-- The magnitude is never negative. -/
theorem abs_nonneg (z : complex) : 0 ≤ z.abs := Real.sqrt_nonneg _

/-- The branches of `operator<` on two complex values, as one proposition:
smaller magnitude, or equal magnitude and smaller real part, or equal
magnitude and real part and smaller imaginary part. -/
theorem op_lt_iff (a b : complex) :
    op_lt a b = true ↔
      a.abs < b.abs ∨ (a.abs = b.abs ∧ (a.re < b.re ∨ (a.re = b.re ∧ a.im < b.im))) := by
  unfold op_lt
  split_ifs <;> simp_all

/-- When `operator<` answers false, as one proposition. -/
theorem op_lt_eq_false_iff (a b : complex) :
    op_lt a b = false ↔
      ¬ (a.abs < b.abs ∨ (a.abs = b.abs ∧ (a.re < b.re ∨ (a.re = b.re ∧ a.im < b.im)))) := by
  rw [← op_lt_iff]
  simp

/-- The magnitude of `(3, 4)` is 5. -/
theorem abs_three_four : (⟨3, 4⟩ : complex).abs = 5 := by
  simp only [complex.abs]
  rw [show (3 : ℝ) * 3 + 4 * 4 = 5 ^ 2 by norm_num]
  exact Real.sqrt_sq (by norm_num)

/-- The magnitude of `(4, 3)` is 5. -/
theorem abs_four_three : (⟨4, 3⟩ : complex).abs = 5 := by
  simp only [complex.abs]
  rw [show (4 : ℝ) * 4 + 3 * 3 = 5 ^ 2 by norm_num]
  exact Real.sqrt_sq (by norm_num)

/-- The magnitude of `(-5, 0)` is 5. -/
theorem abs_neg_five_zero : (⟨-5, 0⟩ : complex).abs = 5 := by
  simp only [complex.abs]
  rw [show (-5 : ℝ) * -5 + 0 * 0 = 5 ^ 2 by norm_num]
  exact Real.sqrt_sq (by norm_num)

/-- The pair `(3, 4)` is below `(4, 3)`: equal magnitudes, real parts `3 < 4`. -/
theorem lt_three_four_four_three : op_lt ⟨3, 4⟩ ⟨4, 3⟩ = true := by
  rw [op_lt_iff, abs_three_four, abs_four_three]
  exact Or.inr ⟨rfl, Or.inl (by norm_num)⟩

/-- The pair `(4, 3)` is below `(5, 0)`: equal magnitudes, real parts `4 < 5`. -/
theorem lt_four_three_five_zero : op_lt ⟨4, 3⟩ (ofReal 5) = true := by
  rw [op_lt_iff, abs_four_three, abs_ofReal]
  refine Or.inr ⟨by norm_num, Or.inl ?_⟩
  simp only [ofReal]
  norm_num

/-- Two values that `operator<` leaves unordered in both directions have the
same magnitude, the same real part and the same imaginary part. -/
theorem eq_of_incomparable (a b : complex)
    (hab : op_lt a b = false) (hba : op_lt b a = false) :
    a.abs = b.abs ∧ a.re = b.re ∧ a.im = b.im := by
  rw [op_lt_eq_false_iff] at hab hba
  push_neg at hab hba
  obtain ⟨h1, h2⟩ := hab
  obtain ⟨h3, h4⟩ := hba
  have hA : a.abs = b.abs := le_antisymm h3 h1
  obtain ⟨h5, h6⟩ := h2 hA
  obtain ⟨h7, h8⟩ := h4 hA.symm
  have hR : a.re = b.re := le_antisymm h7 h5
  exact ⟨hA, hR, le_antisymm (h8 hR.symm) (h6 hR)⟩

/-- The strict scalar comparisons in the two operand orders mirror each
other: `c < n` is `n > c` and `c > n` is `n < c`. -/
theorem scalar_strict_mirror (c : ℝ) (n : complex) :
    scalar_op_lt c n = op_gt_scalar n c ∧ scalar_op_gt c n = op_lt_scalar n c := by
  refine ⟨?_, ?_⟩
  · simp only [scalar_op_lt, op_gt_scalar, gt_iff_lt, eq_comm]
  · simp only [scalar_op_gt, op_lt_scalar, gt_iff_lt, eq_comm]

/-- The comparison `operator>` is `operator<` with the operands exchanged. -/
theorem op_gt_eq_op_lt_swap (a b : complex) : op_gt a b = op_lt b a := by
  simp only [op_gt, op_lt, gt_iff_lt, eq_comm]

/-- A value is never below itself or below a value it is above. -/
theorem op_lt_asymm (a b : complex) (h : op_lt a b = true) : op_lt b a = false := by
  rw [op_lt_iff] at h
  rw [op_lt_eq_false_iff]
  rintro (k | ⟨k, k2 | ⟨k2, k3⟩⟩) <;>
    rcases h with h | ⟨h, h2 | ⟨h2, h3⟩⟩ <;> linarith

/-- Values ordered by `operator<` differ in some component. -/
theorem op_eq_false_of_op_lt (a b : complex) (h : op_lt a b = true) : op_eq a b = false := by
  rw [← Bool.not_eq_true, op_eq_iff_eq]
  rintro rfl
  have := op_lt_asymm a a h
  rw [h] at this
  exact Bool.noConfusion this

/-- The magnitude of `(-1, 0)` is 1. -/
theorem abs_neg_one_zero : (⟨-1, 0⟩ : complex).abs = 1 := by
  simp only [complex.abs]
  rw [show (-1 : ℝ) * -1 + 0 * 0 = 1 by norm_num]
  exact Real.sqrt_one

/-- The magnitude squared is the sum of the squared components. -/
theorem abs_mul_self (z : complex) : z.abs * z.abs = z.re * z.re + z.im * z.im :=
  Real.mul_self_sqrt (normSq_nonneg z)

/-- Away from `(0,0)` the magnitude is positive. -/
theorem abs_pos (z : complex) (h : z ≠ ⟨0, 0⟩) : 0 < z.abs :=
  Real.sqrt_pos.mpr (lt_of_le_of_ne (normSq_nonneg z) (Ne.symm (normSq_ne_zero z h)))

/-- On the first branch of `arg()` the denominator `re + |z|` is positive. -/
theorem re_add_abs_pos (z : complex) (h : z.im ≠ 0 ∨ z.re > 0) : 0 < z.re + z.abs := by
  have hr := abs_nonneg z
  have hsq := abs_mul_self z
  rcases h with h | h
  · have him : 0 < z.im * z.im := mul_self_pos.mpr h
    by_contra hcon
    push_neg at hcon
    nlinarith
  · linarith

/-- Half-angle identities behind the first branch of `arg()`: for a positive
denominator `d = x + r` with `r * r = x * x + y * y` and `r > 0`, the angle
`2 * arctan (y / d)` has cosine `x / r` and sine `y / r`. -/
theorem two_arctan_cos_sin (x y r : ℝ) (hr : 0 < r) (hd : 0 < x + r)
    (hsq : r * r = x * x + y * y) :
    r * Real.cos (2 * Real.arctan (y / (x + r))) = x ∧
    r * Real.sin (2 * Real.arctan (y / (x + r))) = y := by
  have hd0 : x + r ≠ 0 := ne_of_gt hd
  have hr0 : r ≠ 0 := ne_of_gt hr
  have key : 1 + (y / (x + r)) ^ 2 = 2 * r / (x + r) := by
    field_simp
    nlinarith
  have hc2 : Real.cos (Real.arctan (y / (x + r))) ^ 2 = (x + r) / (2 * r) := by
    rw [Real.cos_sq_arctan, key]
    field_simp
  have hcpos := Real.cos_arctan_pos (y / (x + r))
  have hsin : Real.sin (Real.arctan (y / (x + r))) =
      y / (x + r) * Real.cos (Real.arctan (y / (x + r))) := by
    have ht := Real.tan_arctan (y / (x + r))
    rw [Real.tan_eq_sin_div_cos] at ht
    field_simp at ht ⊢
    linarith
  refine ⟨?_, ?_⟩
  · rw [Real.cos_two_mul, hc2]
    field_simp
    ring
  · rw [Real.sin_two_mul, hsin]
    have : 2 * (y / (x + r) * Real.cos (Real.arctan (y / (x + r)))) *
        Real.cos (Real.arctan (y / (x + r))) =
        2 * (y / (x + r)) * Real.cos (Real.arctan (y / (x + r))) ^ 2 := by ring
    rw [this, hc2]
    field_simp
    ring

/-- Two angles in `(-pi, pi]` with the same cosine and the same sine are equal. -/
theorem angle_unique (t u : ℝ) (ht : -Real.pi < t ∧ t ≤ Real.pi)
    (hu : -Real.pi < u ∧ u ≤ Real.pi)
    (hcos : Real.cos t = Real.cos u) (hsin : Real.sin t = Real.sin u) : t = u := by
  have h := Real.Angle.cos_sin_inj hcos hsin
  have h1 := Real.Angle.toReal_coe_eq_self_iff.mpr ht
  have h2 := Real.Angle.toReal_coe_eq_self_iff.mpr hu
  rw [← h1, ← h2, h]

/-! ## Comparisons of `long double` values -/

/-- NaN is `==` to nothing. -/
theorem cmp_eq_nan (b : LongDouble) : cmp_eq .nan b = false := rfl

/-- Negative infinity is `==` to no finite value. -/
theorem cmp_eq_negInf (c : ℝ) : cmp_eq .negInf (.finite c) = false :=
  decide_eq_false (EReal.bot_ne_coe c)

/-- Positive infinity is `==` to no finite value. -/
theorem cmp_eq_posInf (c : ℝ) : cmp_eq .posInf (.finite c) = false :=
  decide_eq_false (EReal.top_ne_coe c)

/-- Negative zero is `==` to a finite value exactly when that value is 0. -/
theorem cmp_eq_negZero (c : ℝ) : cmp_eq .negZero (.finite c) = decide ((0 : ℝ) = c) :=
  decide_eq_decide.mpr EReal.coe_eq_coe_iff

/-- On two finite values `==` is equality of the numbers. -/
theorem cmp_eq_finite (x c : ℝ) : cmp_eq (.finite x) (.finite c) = decide (x = c) :=
  decide_eq_decide.mpr EReal.coe_eq_coe_iff

/-- NaN is `<` nothing. -/
theorem cmp_lt_nan (b : LongDouble) : cmp_lt .nan b = false := rfl

/-- Negative infinity is `<` every finite value. -/
theorem cmp_lt_negInf (c : ℝ) : cmp_lt .negInf (.finite c) = true :=
  decide_eq_true (EReal.bot_lt_coe c)

/-- Positive infinity is `<` no finite value. -/
theorem cmp_lt_posInf (c : ℝ) : cmp_lt .posInf (.finite c) = false :=
  decide_eq_false (fun h : (⊤ : EReal) < ((c : ℝ) : EReal) => not_top_lt h)

/-- Negative zero is `<` a finite value exactly when 0 is. -/
theorem cmp_lt_negZero (c : ℝ) : cmp_lt .negZero (.finite c) = decide ((0 : ℝ) < c) :=
  decide_eq_decide.mpr EReal.coe_lt_coe_iff

/-- On two finite values `<` is the order of the numbers. -/
theorem cmp_lt_finite (x c : ℝ) : cmp_lt (.finite x) (.finite c) = decide (x < c) :=
  decide_eq_decide.mpr EReal.coe_lt_coe_iff

/-- NaN is `>` nothing. -/
theorem cmp_gt_nan (b : LongDouble) : cmp_gt .nan b = false := rfl

/-- Negative infinity is `>` no finite value. -/
theorem cmp_gt_negInf (c : ℝ) : cmp_gt .negInf (.finite c) = false :=
  decide_eq_false (fun h : ((c : ℝ) : EReal) < (⊥ : EReal) => not_lt_bot h)

/-- Positive infinity is `>` every finite value. -/
theorem cmp_gt_posInf (c : ℝ) : cmp_gt .posInf (.finite c) = true :=
  decide_eq_true (EReal.coe_lt_top c)

/-- Negative zero is `>` a finite value exactly when 0 is. -/
theorem cmp_gt_negZero (c : ℝ) : cmp_gt .negZero (.finite c) = decide ((0 : ℝ) > c) :=
  decide_eq_decide.mpr EReal.coe_lt_coe_iff

/-- On two finite values `>` is the order of the numbers. -/
theorem cmp_gt_finite (x c : ℝ) : cmp_gt (.finite x) (.finite c) = decide (x > c) :=
  decide_eq_decide.mpr EReal.coe_lt_coe_iff

/-- How a stored value compares with the constants 0, 1 and -1: it is NaN and
every test fails, or it is `==` 0, or `==` 1, or `==` -1, or another value
`>` 0, or another value `<` 0; the answers of the five tests in each case. -/
theorem cmp_profile (a : LongDouble) :
    (a = .nan ∧ cmp_eq a (.finite 0) = false ∧ cmp_eq a (.finite 1) = false ∧
      cmp_eq a (.finite (-1)) = false ∧ cmp_gt a (.finite 0) = false ∧
      cmp_lt a (.finite 0) = false) ∨
    (a ≠ .nan ∧ cmp_eq a (.finite 0) = true ∧ cmp_eq a (.finite 1) = false ∧
      cmp_eq a (.finite (-1)) = false ∧ cmp_gt a (.finite 0) = false ∧
      cmp_lt a (.finite 0) = false) ∨
    (a ≠ .nan ∧ cmp_eq a (.finite 0) = false ∧ cmp_eq a (.finite 1) = true ∧
      cmp_eq a (.finite (-1)) = false ∧ cmp_gt a (.finite 0) = true ∧
      cmp_lt a (.finite 0) = false) ∨
    (a ≠ .nan ∧ cmp_eq a (.finite 0) = false ∧ cmp_eq a (.finite 1) = false ∧
      cmp_eq a (.finite (-1)) = true ∧ cmp_gt a (.finite 0) = false ∧
      cmp_lt a (.finite 0) = true) ∨
    (a ≠ .nan ∧ cmp_eq a (.finite 0) = false ∧ cmp_eq a (.finite 1) = false ∧
      cmp_eq a (.finite (-1)) = false ∧ cmp_gt a (.finite 0) = true ∧
      cmp_lt a (.finite 0) = false) ∨
    (a ≠ .nan ∧ cmp_eq a (.finite 0) = false ∧ cmp_eq a (.finite 1) = false ∧
      cmp_eq a (.finite (-1)) = false ∧ cmp_gt a (.finite 0) = false ∧
      cmp_lt a (.finite 0) = true) := by
  cases a with
  | nan =>
    left
    exact ⟨rfl, rfl, rfl, rfl, rfl, rfl⟩
  | negInf =>
    right; right; right; right; right
    simp only [cmp_eq_negInf, cmp_gt_negInf, cmp_lt_negInf]
    simp
  | posInf =>
    right; right; right; right; left
    simp only [cmp_eq_posInf, cmp_gt_posInf, cmp_lt_posInf]
    simp
  | negZero =>
    right; left
    simp only [cmp_eq_negZero, cmp_gt_negZero, cmp_lt_negZero]
    norm_num
    exact LongDouble.noConfusion
  | finite x =>
    simp only [cmp_eq_finite, cmp_gt_finite, cmp_lt_finite]
    by_cases h0 : x = 0
    · right; left
      subst h0
      norm_num
      exact LongDouble.noConfusion
    · by_cases h1 : x = 1
      · right; right; left
        subst h1
        norm_num
        exact LongDouble.noConfusion
      · by_cases h2 : x = -1
        · right; right; right; left
          subst h2
          norm_num
          exact LongDouble.noConfusion
        · rcases lt_or_gt_of_ne h0 with hlt | hgt
          · right; right; right; right; right
            simp [h0, h1, h2, hlt, le_of_lt hlt]
          · right; right; right; right; left
            simp [h0, h1, h2, hgt, le_of_lt hgt]

/-- C1: addition and multiplication of two complex values are commutative,
with equality tested by `operator==`. -/
theorem C1_add_mul_comm (a b : complex) :
    op_eq (op_add a b) (op_add b a) = true ∧ op_eq (op_mul a b) (op_mul b a) = true := by
  refine ⟨?_, ?_⟩
  · simp only [op_eq, op_add, Bool.and_eq_true, decide_eq_true_eq]
    exact ⟨by ring, by ring⟩
  · simp only [op_eq, op_mul, Bool.and_eq_true, decide_eq_true_eq]
    exact ⟨by ring, by ring⟩

/-- C2: multiplication distributes over addition:
`a * (b + c) == a*b + a*c`. -/
theorem C2_mul_distrib (a b c : complex) :
    op_eq (op_mul a (op_add b c)) (op_add (op_mul a b) (op_mul a c)) = true := by
  rw [op_eq_iff]
  simp only [op_mul, op_add]
  exact ⟨by ring, by ring⟩

/-- C3: the product `z * (~z)` has imaginary part 0 and its real part is the
square of `z.abs()`. -/
theorem C3_mul_conj (z : complex) :
    (op_mul z (op_conj z)).im = 0 ∧ (op_mul z (op_conj z)).re = z.abs ^ 2 := by
  refine ⟨?_, ?_⟩
  · simp only [op_mul, op_conj]
    ring
  · simp only [op_mul, op_conj, complex.abs]
    rw [Real.sq_sqrt (normSq_nonneg z)]
    ring

/-- C4: for a nonzero real `c`, dividing by `c` and multiplying by `c` gives the
value back: `(z / c) * c == z`. -/
theorem C4_div_mul_scalar (z : complex) (c : ℝ) (hc : c ≠ 0) :
    op_eq (op_mul_scalar (op_div_scalar z c) c) z = true := by
  rw [op_eq_iff]
  simp only [op_mul_scalar, op_div_scalar]
  exact ⟨div_mul_cancel₀ _ hc, div_mul_cancel₀ _ hc⟩

/-- Witness of C4 at `z = (6, -9)`, `c = 3`. -/
theorem C4_div_mul_scalar_witness :
    (3 : ℝ) ≠ 0 ∧ op_eq (op_mul_scalar (op_div_scalar ⟨6, -9⟩ 3) 3) ⟨6, -9⟩ = true :=
  ⟨by norm_num, C4_div_mul_scalar ⟨6, -9⟩ 3 (by norm_num)⟩

/-- C5: every scalar overload of `+ - * /` returns what the complex-complex
operator returns on the promoted scalar `complex(c, 0)`, in both operand
orders; the two quotients are taken with a nonzero divisor. -/
theorem C5_scalar_promotion (z : complex) (c : ℝ) :
    op_eq (op_add_scalar z c) (op_add z (ofReal c)) = true ∧
    op_eq (scalar_op_add c z) (op_add (ofReal c) z) = true ∧
    op_eq (op_sub_scalar z c) (op_sub z (ofReal c)) = true ∧
    op_eq (scalar_op_sub c z) (op_sub (ofReal c) z) = true ∧
    op_eq (op_mul_scalar z c) (op_mul z (ofReal c)) = true ∧
    op_eq (scalar_op_mul c z) (op_mul (ofReal c) z) = true ∧
    (c ≠ 0 → op_eq (op_div_scalar z c) (op_div z (ofReal c)) = true) ∧
    (z ≠ ⟨0, 0⟩ → op_eq (scalar_op_div c z) (op_div (ofReal c) z) = true) := by
  refine ⟨?_, ?_, ?_, ?_, ?_, ?_, ?_, ?_⟩
  · rw [op_eq_iff]
    simp only [op_add_scalar, op_add, ofReal]
    exact ⟨trivial, by ring⟩
  · rw [op_eq_iff]
    simp only [scalar_op_add, op_add, ofReal]
    exact ⟨by ring, by ring⟩
  · rw [op_eq_iff]
    simp only [op_sub_scalar, op_sub, ofReal]
    exact ⟨trivial, by ring⟩
  · rw [op_eq_iff]
    simp only [scalar_op_sub, op_sub, ofReal]
    exact ⟨trivial, by ring⟩
  · rw [op_eq_iff]
    simp only [op_mul_scalar, op_mul, ofReal]
    exact ⟨by ring, by ring⟩
  · rw [op_eq_iff]
    simp only [scalar_op_mul, op_mul_scalar, op_mul, ofReal]
    exact ⟨by ring, by ring⟩
  · intro hc
    rw [op_eq_iff]
    simp only [op_div_scalar, op_div, ofReal]
    refine ⟨?_, ?_⟩
    · field_simp
      ring
    · field_simp
      ring
  · intro hz
    have hd : z.re * z.re + z.im * z.im ≠ 0 := normSq_ne_zero z hz
    rw [op_eq_iff]
    simp only [scalar_op_div, op_div, ofReal]
    refine ⟨?_, ?_⟩
    · congr 1
      ring
    · congr 1
      ring

/-- Witness of C5 at `z = (3, 4)`, `c = 2`: both divisors are nonzero there,
so all eight equations hold outright. -/
theorem C5_scalar_promotion_witness :
    (2 : ℝ) ≠ 0 ∧ (⟨3, 4⟩ : complex) ≠ ⟨0, 0⟩ ∧
    op_eq (op_div_scalar ⟨3, 4⟩ 2) (op_div ⟨3, 4⟩ (ofReal 2)) = true ∧
    op_eq (scalar_op_div 2 ⟨3, 4⟩) (op_div (ofReal 2) ⟨3, 4⟩) = true := by
  have h2 : (2 : ℝ) ≠ 0 := by norm_num
  have hz : (⟨3, 4⟩ : complex) ≠ ⟨0, 0⟩ := by
    intro h
    have := congrArg complex.re h
    norm_num at this
  have h := C5_scalar_promotion ⟨3, 4⟩ 2
  exact ⟨h2, hz, h.2.2.2.2.2.2.1 h2, h.2.2.2.2.2.2.2 hz⟩

/-! ## Orderings -/

/-- C6, as stated, fails: for `a = (3,4)` and `b = (4,3)` it is not the case
that `a <= b`, `b <= a` hold while `a < b`, `b < a` and `a == b` are all
false, because `a < b` is true (equal magnitudes, real parts `3 < 4`). -/
theorem C6_as_stated_fails :
    ¬ (op_le ⟨3, 4⟩ ⟨4, 3⟩ = true ∧ op_le ⟨4, 3⟩ ⟨3, 4⟩ = true ∧
       op_lt ⟨3, 4⟩ ⟨4, 3⟩ = false ∧ op_lt ⟨4, 3⟩ ⟨3, 4⟩ = false ∧
       op_eq ⟨3, 4⟩ ⟨4, 3⟩ = false) := by
  rintro ⟨-, -, h, -, -⟩
  rw [op_lt_eq_false_iff] at h
  apply h
  right
  refine ⟨?_, Or.inl (by norm_num)⟩
  rw [abs_three_four, abs_four_three]

/-- C6, amended: for `a = (3,4)` and `b = (4,3)`, `a <= b` and `b <= a` are
both true, `a < b` is true (the tie in magnitude is broken by the real
part), `b < a` is false and `a == b` is false. -/
theorem C6_equal_magnitude_pair :
    op_le ⟨3, 4⟩ ⟨4, 3⟩ = true ∧ op_le ⟨4, 3⟩ ⟨3, 4⟩ = true ∧
    op_lt ⟨3, 4⟩ ⟨4, 3⟩ = true ∧ op_lt ⟨4, 3⟩ ⟨3, 4⟩ = false ∧
    op_eq ⟨3, 4⟩ ⟨4, 3⟩ = false := by
  refine ⟨?_, ?_, ?_, ?_, ?_⟩
  · simp only [op_le, abs_three_four, abs_four_three, le_refl, decide_True]
  · simp only [op_le, abs_three_four, abs_four_three, le_refl, decide_True]
  · rw [op_lt_iff, abs_three_four, abs_four_three]
    exact Or.inr ⟨rfl, Or.inl (by norm_num)⟩
  · rw [op_lt_eq_false_iff, abs_three_four, abs_four_three]
    norm_num
  · rw [← Bool.not_eq_true, op_eq_iff]
    norm_num

/-- C7: `operator<` on two complex values is a strict weak ordering: it is
irreflexive, it is transitive, and being unordered in both directions is
transitive. -/
theorem C7_op_lt_strict_weak_order :
    (∀ a : complex, op_lt a a = false) ∧
    (∀ a b c : complex, op_lt a b = true → op_lt b c = true → op_lt a c = true) ∧
    (∀ a b c : complex, op_lt a b = false → op_lt b a = false →
        op_lt b c = false → op_lt c b = false →
        op_lt a c = false ∧ op_lt c a = false) := by
  refine ⟨?_, ?_, ?_⟩
  · intro a
    rw [op_lt_eq_false_iff]
    simp
  · intro a b c hab hbc
    rw [op_lt_iff] at hab hbc ⊢
    rcases hab with h | ⟨h, h2 | ⟨h2, h3⟩⟩ <;>
      rcases hbc with k | ⟨k, k2 | ⟨k2, k3⟩⟩ <;>
      first
        | exact Or.inl (by linarith)
        | exact Or.inr ⟨by linarith, Or.inl (by linarith)⟩
        | exact Or.inr ⟨by linarith, Or.inr ⟨by linarith, by linarith⟩⟩
  · intro a b c hab hba hbc hcb
    obtain ⟨h1, h2, h3⟩ := eq_of_incomparable a b hab hba
    obtain ⟨k1, k2, k3⟩ := eq_of_incomparable b c hbc hcb
    refine ⟨?_, ?_⟩
    · rw [op_lt_eq_false_iff, h1, k1, h2, k2, h3, k3]
      simp
    · rw [op_lt_eq_false_iff, h1, k1, h2, k2, h3, k3]
      simp

/-- Witness of C7 (transitivity) on three values of magnitude 5:
`(3,4) < (4,3)` and `(4,3) < (5,0)`, hence `(3,4) < (5,0)`. -/
theorem C7_op_lt_strict_weak_order_witness :
    op_lt ⟨3, 4⟩ ⟨4, 3⟩ = true ∧ op_lt ⟨4, 3⟩ (ofReal 5) = true ∧
    op_lt ⟨3, 4⟩ (ofReal 5) = true :=
  ⟨lt_three_four_four_three, lt_four_three_five_zero,
   C7_op_lt_strict_weak_order.2.1 ⟨3, 4⟩ ⟨4, 3⟩ (ofReal 5)
     lt_three_four_four_three lt_four_three_five_zero⟩

/-- C8: each strict comparison against a real scalar `c` returns what the
complex-complex comparison returns on `complex(c, 0)`, in both operand
orders. -/
theorem C8_strict_scalar_agrees (z : complex) (c : ℝ) :
    op_lt_scalar z c = op_lt z (ofReal c) ∧
    op_gt_scalar z c = op_gt z (ofReal c) ∧
    scalar_op_lt c z = op_lt (ofReal c) z ∧
    scalar_op_gt c z = op_gt (ofReal c) z := by
  refine ⟨?_, ?_, ?_, ?_⟩
  · simp only [op_lt_scalar, op_lt, abs_ofReal]
    rfl
  · simp only [op_gt_scalar, op_gt, abs_ofReal]
    rfl
  · simp only [scalar_op_lt, op_lt, abs_ofReal]
    rfl
  · simp only [scalar_op_gt, op_gt, abs_ofReal]
    rfl

/-- C9, evaluated at `z = (-5, 0)`, `c = 1`: the member `z <= c` answers true
where `z <= complex(c,0)` answers false (magnitudes `5 <= 1`), and the member
`z >= c` answers false where `z >= complex(c,0)` answers true. -/
theorem C9_nonstrict_scalar_at_neg_five :
    op_le_scalar ⟨-5, 0⟩ 1 = true ∧ op_le ⟨-5, 0⟩ (ofReal 1) = false ∧
    op_ge_scalar ⟨-5, 0⟩ 1 = false ∧ op_ge ⟨-5, 0⟩ (ofReal 1) = true := by
  refine ⟨?_, ?_, ?_, ?_⟩
  · simp only [op_le_scalar]
    norm_num
  · simp only [op_le, abs_neg_five_zero, abs_ofReal]
    norm_num
  · simp only [op_ge_scalar]
    norm_num
  · simp only [op_ge, abs_neg_five_zero, abs_ofReal]
    norm_num

/-- C10, evaluated at `c = 1`, `n = (-5, 0)`: the friend `c <= n` answers true
where the member `n >= c` answers false, and the friend `c >= n` answers
false where the member `n <= c` answers true. -/
theorem C10_nonstrict_mirror_at_neg_five :
    scalar_op_le 1 ⟨-5, 0⟩ = true ∧ op_ge_scalar ⟨-5, 0⟩ 1 = false ∧
    scalar_op_ge 1 ⟨-5, 0⟩ = false ∧ op_le_scalar ⟨-5, 0⟩ 1 = true := by
  refine ⟨?_, ?_, ?_, ?_⟩
  · simp only [scalar_op_le, abs_neg_five_zero]
    norm_num
  · simp only [op_ge_scalar]
    norm_num
  · simp only [scalar_op_ge, abs_neg_five_zero]
    norm_num
  · simp only [op_le_scalar]
    norm_num

/-! ## Equality, conjugation, compound assignment -/

/-- C11: equality is exact component match and inequality is its negation in
every overload: `a == n` holds iff both components agree; `a == c`, `c == a`
and `a == complex(c,0)` agree; each `!=` is the negation of its `==`. -/
theorem C11_equality_overloads (a n : complex) (c : ℝ) :
    (op_eq a n = true ↔ a.re = n.re ∧ a.im = n.im) ∧
    op_eq_scalar a c = scalar_op_eq c a ∧
    op_eq_scalar a c = op_eq a (ofReal c) ∧
    op_ne a n = !(op_eq a n) ∧
    op_ne_scalar a c = !(op_eq_scalar a c) ∧
    scalar_op_ne c a = !(scalar_op_eq c a) := by
  refine ⟨op_eq_iff a n, rfl, rfl, ?_, ?_, ?_⟩
  · simp only [op_ne, op_eq, ne_eq, decide_not, Bool.not_and]
  · simp only [op_ne_scalar, op_eq_scalar, ne_eq, decide_not, Bool.not_and]
  · simp only [scalar_op_ne, scalar_op_eq, ne_eq, decide_not, Bool.not_and]

/-- C17: every compound assignment leaves the receiver equal to the result of
the corresponding binary operator on the original operands, for a complex
and for a scalar right-hand side; `+= c` and `-= c` keep the imaginary part.
Each quotient is the same expression on both sides, so no condition on the
divisor is needed. -/
theorem C17_compound_assignment (z n : complex) (c : ℝ) :
    op_add_assign z n = op_add z n ∧
    op_sub_assign z n = op_sub z n ∧
    op_mul_assign z n = op_mul z n ∧
    op_div_assign z n = op_div z n ∧
    op_add_assign_scalar z c = op_add_scalar z c ∧
    op_sub_assign_scalar z c = op_sub_scalar z c ∧
    op_mul_assign_scalar z c = op_mul_scalar z c ∧
    op_div_assign_scalar z c = op_div_scalar z c ∧
    (op_add_assign_scalar z c).im = z.im ∧
    (op_sub_assign_scalar z c).im = z.im := by
  refine ⟨rfl, rfl, rfl, rfl, rfl, rfl, ?_, rfl, rfl, rfl⟩
  simp only [op_mul_assign_scalar, op_mul_scalar, mul_comm]

/-! ## Argument -/

/-- C12: away from `(0,0)`, `arg()` returns the principal argument: its value
`t` lies in `(-pi, pi]` and satisfies `|z| * cos t = re` and `|z| * sin t = im`;
it is the only such angle; and it is `pi` when `re < 0` and `im = 0`. -/
theorem C12_arg_principal (z : complex) (hz : z ≠ ⟨0, 0⟩) :
    (-Real.pi < (arg z).2 ∧ (arg z).2 ≤ Real.pi ∧
      z.abs * Real.cos (arg z).2 = z.re ∧ z.abs * Real.sin (arg z).2 = z.im) ∧
    (∀ t : ℝ, -Real.pi < t → t ≤ Real.pi →
      z.abs * Real.cos t = z.re → z.abs * Real.sin t = z.im → t = (arg z).2) ∧
    (z.re < 0 → z.im = 0 → (arg z).2 = Real.pi) := by
  have hr : 0 < z.abs := abs_pos z hz
  have hmain : -Real.pi < (arg z).2 ∧ (arg z).2 ≤ Real.pi ∧
      z.abs * Real.cos (arg z).2 = z.re ∧ z.abs * Real.sin (arg z).2 = z.im := by
    by_cases h : z.im ≠ 0 ∨ z.re > 0
    · have harg : (arg z).2 = 2 * Real.arctan (z.im / (z.re + z.abs)) := by
        simp only [arg, if_pos h]
        rfl
      have hcs := two_arctan_cos_sin z.re z.im z.abs hr (re_add_abs_pos z h) (abs_mul_self z)
      have h1 := Real.neg_pi_div_two_lt_arctan (z.im / (z.re + z.abs))
      have h2 := Real.arctan_lt_pi_div_two (z.im / (z.re + z.abs))
      rw [harg]
      exact ⟨by linarith, by linarith, hcs.1, hcs.2⟩
    · have harg : (arg z).2 = Real.pi := by
        push_neg at h
        have hne : z.re ≠ 0 := by
          intro h0
          apply hz
          cases z
          simp only [complex.mk.injEq]
          exact ⟨h0, h.1⟩
        have hlt : z.re < 0 := lt_of_le_of_ne h.2 hne
        simp only [arg, M_PI, ne_eq, gt_iff_lt, h.1, not_true_eq_false, not_lt.mpr h.2,
          or_self, if_false, hlt, if_true]
      push_neg at h
      have habs : z.abs = -z.re := by
        simp only [complex.abs, h.1, mul_zero, add_zero]
        rw [Real.sqrt_mul_self_eq_abs, abs_of_nonpos h.2]
      rw [harg, Real.cos_pi, Real.sin_pi, habs, h.1]
      have hpi := Real.pi_pos
      exact ⟨by linarith, le_refl _, by ring, by ring⟩
  refine ⟨hmain, ?_, ?_⟩
  · intro t ht1 ht2 hc hs
    obtain ⟨m1, m2, m3, m4⟩ := hmain
    have hr0 : z.abs ≠ 0 := ne_of_gt hr
    apply angle_unique t (arg z).2 ⟨ht1, ht2⟩ ⟨m1, m2⟩
    · exact mul_left_cancel₀ hr0 (hc.trans m3.symm)
    · exact mul_left_cancel₀ hr0 (hs.trans m4.symm)
  · intro hre him
    have h1 : ¬ (z.im ≠ 0 ∨ z.re > 0) := by
      push_neg
      exact ⟨him, le_of_lt hre⟩
    simp only [arg, M_PI, if_neg h1, if_pos hre]

/-- Witness of C12 at `z = (-1, 0)`, a negative real: `arg()` returns `pi`. -/
theorem C12_arg_principal_witness :
    (⟨-1, 0⟩ : complex) ≠ ⟨0, 0⟩ ∧ (arg ⟨-1, 0⟩).2 = Real.pi := by
  have hz : (⟨-1, 0⟩ : complex) ≠ ⟨0, 0⟩ := by
    intro h
    have := congrArg complex.re h
    norm_num at this
  exact ⟨hz, (C12_arg_principal ⟨-1, 0⟩ hz).2.2 (by norm_num) rfl⟩

/-- C14, evaluated at `z = (-1, 0)`: `sqrt()` returns `(0, 0)`, which is not
`(0, 1)` and whose square is not `z`. -/
theorem C14_sqrt_at_neg_one :
    sqrt ⟨-1, 0⟩ = ⟨0, 0⟩ ∧
    op_eq (sqrt ⟨-1, 0⟩) ⟨0, 1⟩ = false ∧
    op_eq (op_mul (sqrt ⟨-1, 0⟩) (sqrt ⟨-1, 0⟩)) ⟨-1, 0⟩ = false := by
  have h : sqrt ⟨-1, 0⟩ = ⟨0, 0⟩ := by
    simp only [complex.sqrt, abs_neg_one_zero]
    norm_num
  refine ⟨h, ?_, ?_⟩
  · rw [h, ← Bool.not_eq_true, op_eq_iff]
    norm_num
  · rw [h, ← Bool.not_eq_true, op_eq_iff]
    simp only [op_mul]
    norm_num

/-- C18: both components of `z.sqrt()` are `sqrt((z.re + z.abs())/2)`; they
are equal and non-negative, and the square of the result has real part 0. -/
theorem C18_sqrt_components (z : complex) :
    (sqrt z).re = Real.sqrt ((z.re + z.abs) / 2) ∧
    (sqrt z).im = Real.sqrt ((z.re + z.abs) / 2) ∧
    (sqrt z).re = (sqrt z).im ∧
    0 ≤ (sqrt z).re ∧ 0 ≤ (sqrt z).im ∧
    (op_mul (sqrt z) (sqrt z)).re = 0 := by
  refine ⟨rfl, rfl, rfl, Real.sqrt_nonneg _, Real.sqrt_nonneg _, ?_⟩
  simp only [op_mul, complex.sqrt]
  ring

/-! ## Totality of the strict ordering, and division -/

/-- C19: for two complex values exactly one of `a < b`, `a == b`, `b < a`
holds; `a > b` is `b < a`; and `a < b` implies `a <= b` and `a != b`. -/
theorem C19_trichotomy (a b : complex) :
    ((op_lt a b = true ∧ op_eq a b = false ∧ op_lt b a = false) ∨
     (op_lt a b = false ∧ op_eq a b = true ∧ op_lt b a = false) ∨
     (op_lt a b = false ∧ op_eq a b = false ∧ op_lt b a = true)) ∧
    op_gt a b = op_lt b a ∧
    (op_lt a b = true → op_le a b = true ∧ op_ne a b = true) := by
  refine ⟨?_, op_gt_eq_op_lt_swap a b, ?_⟩
  · cases hab : op_lt a b
    · cases hba : op_lt b a
      · right; left
        obtain ⟨-, h2, h3⟩ := eq_of_incomparable a b hab hba
        exact ⟨rfl, (op_eq_iff a b).mpr ⟨h2, h3⟩, rfl⟩
      · right; right
        refine ⟨rfl, ?_, rfl⟩
        have h := op_eq_false_of_op_lt b a hba
        rw [← Bool.not_eq_true, op_eq_iff] at h ⊢
        exact fun k => h ⟨k.1.symm, k.2.symm⟩
    · left
      exact ⟨rfl, op_eq_false_of_op_lt a b hab, op_lt_asymm a b hab⟩
  · intro hab
    have hne := op_eq_false_of_op_lt a b hab
    rw [op_lt_iff] at hab
    refine ⟨?_, ?_⟩
    · simp only [op_le, decide_eq_true_eq]
      rcases hab with h | ⟨h, -⟩
      · exact le_of_lt h
      · exact le_of_eq h
    · rw [← Bool.not_eq_true, op_eq_iff] at hne
      simp only [op_ne, ne_eq, Bool.or_eq_true, decide_eq_true_eq]
      by_contra hcon
      push_neg at hcon
      exact hne hcon

/-- Witness of C19 at `a = (3,4)`, `b = (4,3)`: `a < b`, hence `a <= b` and
`a != b`. -/
theorem C19_trichotomy_witness :
    op_lt ⟨3, 4⟩ ⟨4, 3⟩ = true ∧ op_le ⟨3, 4⟩ ⟨4, 3⟩ = true ∧ op_ne ⟨3, 4⟩ ⟨4, 3⟩ = true :=
  ⟨lt_three_four_four_three,
   (C19_trichotomy ⟨3, 4⟩ ⟨4, 3⟩).2.2 lt_three_four_four_three⟩

/-- C20: for a divisor `n` other than `(0,0)`, complex division inverts complex
multiplication: `(z / n) * n == z` and `(z * n) / n == z`. -/
theorem C20_div_inverts_mul (z n : complex) (hn : n ≠ ⟨0, 0⟩) :
    op_eq (op_mul (op_div z n) n) z = true ∧ op_eq (op_div (op_mul z n) n) z = true := by
  have hd : n.re * n.re + n.im * n.im ≠ 0 := normSq_ne_zero n hn
  refine ⟨?_, ?_⟩
  · rw [op_eq_iff]
    simp only [op_mul, op_div]
    refine ⟨?_, ?_⟩
    · field_simp
      ring
    · field_simp
      ring
  · rw [op_eq_iff]
    simp only [op_mul, op_div]
    refine ⟨?_, ?_⟩
    · field_simp
      ring
    · field_simp
      ring

/-- Witness of C20 at `z = (1, 2)`, `n = (3, 4)`. -/
theorem C20_div_inverts_mul_witness :
    (⟨3, 4⟩ : complex) ≠ ⟨0, 0⟩ ∧
    op_eq (op_mul (op_div ⟨1, 2⟩ ⟨3, 4⟩) ⟨3, 4⟩) ⟨1, 2⟩ = true ∧
    op_eq (op_div (op_mul ⟨1, 2⟩ ⟨3, 4⟩) ⟨3, 4⟩) ⟨1, 2⟩ = true := by
  have hn : (⟨3, 4⟩ : complex) ≠ ⟨0, 0⟩ := by
    intro h
    have := congrArg complex.re h
    norm_num at this
  exact ⟨hn, C20_div_inverts_mul ⟨1, 2⟩ ⟨3, 4⟩ hn⟩

/-! ## Formatting -/

/-- At most one row of the formatting table applies to a value. -/
theorem SpecFormatRow.applies_unique (n : complex_ld) (r s : SpecFormatRow)
    (hr : r.applies n) (hs : s.applies n) : r = s := by
  rcases cmp_profile n.im with k | k | k | k | k | k <;>
    obtain ⟨-, k1, k2, k3, k4, k5⟩ := k <;>
    cases hre : cmp_eq n.re (.finite 0) <;>
    cases r <;> cases s <;>
    simp only [SpecFormatRow.applies, cmp_ne, hre, k1, k2, k3, k4, k5] at hr hs <;>
    first
      | rfl
      | (exfalso
         revert hr hs
         simp)

/-- Some row of the formatting table applies to a value whose real part is
`==` 0 or whose imaginary part is not NaN. -/
theorem SpecFormatRow.exists_applies (n : complex_ld)
    (h : cmp_eq n.re (.finite 0) = true ∨ n.im ≠ .nan) : ∃ r : SpecFormatRow, r.applies n := by
  rcases cmp_profile n.im with k | k | k | k | k | k <;>
    obtain ⟨k0, k1, k2, k3, k4, k5⟩ := k <;>
    cases hre : cmp_eq n.re (.finite 0)
  · rcases h with h | h
    · rw [hre] at h
      exact Bool.noConfusion h
    · exact absurd k0 h
  · exact ⟨.zero_other, by simp [SpecFormatRow.applies, cmp_ne, hre, k1, k2, k3]⟩
  · exact ⟨.re_zero, by simp [SpecFormatRow.applies, cmp_ne, hre, k1]⟩
  · exact ⟨.zero_zero, by simp [SpecFormatRow.applies, cmp_ne, hre, k1]⟩
  · exact ⟨.re_one, by simp [SpecFormatRow.applies, cmp_ne, hre, k2]⟩
  · exact ⟨.zero_one, by simp [SpecFormatRow.applies, cmp_ne, hre, k2]⟩
  · exact ⟨.re_neg_one, by simp [SpecFormatRow.applies, cmp_ne, hre, k3]⟩
  · exact ⟨.zero_neg_one, by simp [SpecFormatRow.applies, cmp_ne, hre, k3]⟩
  · exact ⟨.re_pos, by simp [SpecFormatRow.applies, cmp_ne, hre, k2, k4]⟩
  · exact ⟨.zero_other, by simp [SpecFormatRow.applies, cmp_ne, hre, k1, k2, k3]⟩
  · exact ⟨.re_neg, by simp [SpecFormatRow.applies, cmp_ne, hre, k3, k5]⟩
  · exact ⟨.zero_other, by simp [SpecFormatRow.applies, cmp_ne, hre, k1, k2, k3]⟩

/-- When a row of the formatting table applies, `operator<<` writes that
row's output. -/
theorem op_out_of_applies (fmt : LongDouble → String) (n : complex_ld) (r : SpecFormatRow)
    (hr : r.applies n) : complex_ld.op_out fmt n = r.output fmt n := by
  rcases cmp_profile n.im with k | k | k | k | k | k <;>
    obtain ⟨-, k1, k2, k3, k4, k5⟩ := k <;>
    cases hre : cmp_eq n.re (.finite 0) <;>
    cases r <;>
    simp only [SpecFormatRow.applies, cmp_ne, hre, k1, k2, k3, k4, k5] at hr <;>
    first
      | (exfalso
         revert hr
         simp
         done)
      | simp [complex_ld.op_out, SpecFormatRow.output, hre, k1, k2, k3, k4, k5]

/-- No row of the formatting table applies to `(3, NaN)`. -/
theorem no_row_at_three_nan (r : SpecFormatRow) :
    ¬ SpecFormatRow.applies ⟨.finite 3, .nan⟩ r := by
  cases r <;> simp only [SpecFormatRow.applies, cmp_ne, cmp_eq_finite, cmp_eq_nan, cmp_gt_nan,
    cmp_lt_nan] <;> norm_num

/-- At `(3, NaN)` the function `operator<<` reaches its last statement and
writes the real part, the imaginary part and `j`. -/
theorem op_out_at_three_nan (fmt : LongDouble → String) :
    complex_ld.op_out fmt ⟨.finite 3, .nan⟩ = fmt (.finite 3) ++ fmt .nan ++ "j" := by
  simp only [complex_ld.op_out, cmp_eq_finite, cmp_eq_nan, cmp_gt_nan]
  norm_num

/-- C15, as stated, fails: the nine rows are not exhaustive, since no row
applies to `(3, NaN)`, a value `operator<<` accepts and prints. -/
theorem C15_as_stated_fails :
    ¬ (∃! r : SpecFormatRow, r.applies ⟨.finite 3, .nan⟩) := by
  rintro ⟨r, hr, -⟩
  exact no_row_at_three_nan r hr

/-- C15, amended: whichever row of the formatting table applies to a value,
`operator<<` writes that row's output; no two rows apply to the same value;
exactly one row applies to every value whose real part is `==` 0 or whose
imaginary part is not NaN; and the four sample values give `0`, `3-j`, `2j`
and `-5` once the scalar formatter prints 3, 2 and -5 that way. -/
theorem C15_format_table (fmt : LongDouble → String) (n : complex_ld) :
    (∀ r : SpecFormatRow, r.applies n → complex_ld.op_out fmt n = r.output fmt n) ∧
    (∀ r s : SpecFormatRow, r.applies n → s.applies n → r = s) ∧
    (cmp_eq n.re (.finite 0) = true ∨ n.im ≠ .nan → ∃! r : SpecFormatRow, r.applies n) ∧
    complex_ld.op_out fmt ⟨.finite 0, .finite 0⟩ = "0" ∧
    (fmt (.finite 3) = "3" → complex_ld.op_out fmt ⟨.finite 3, .finite (-1)⟩ = "3-j") ∧
    (fmt (.finite 2) = "2" → complex_ld.op_out fmt ⟨.finite 0, .finite 2⟩ = "2j") ∧
    (fmt (.finite (-5)) = "-5" → complex_ld.op_out fmt ⟨.finite (-5), .finite 0⟩ = "-5") := by
  refine ⟨op_out_of_applies fmt n, SpecFormatRow.applies_unique n, ?_, ?_, ?_, ?_, ?_⟩
  · intro h
    obtain ⟨r, hr⟩ := SpecFormatRow.exists_applies n h
    exact ⟨r, hr, fun s hs => SpecFormatRow.applies_unique n s r hs hr⟩
  · simp only [complex_ld.op_out, cmp_eq_finite]
    norm_num
  · intro h
    simp only [complex_ld.op_out, cmp_eq_finite, cmp_gt_finite, h]
    norm_num
    decide
  · intro h
    simp only [complex_ld.op_out, cmp_eq_finite, cmp_gt_finite, h]
    norm_num
    decide
  · intro h
    simp only [complex_ld.op_out, cmp_eq_finite, cmp_gt_finite, h]
    norm_num

/-- Witness of C15 at `(3, -1)` with a formatter that prints `3`: the row
`nonzero, -1` applies, it is the only row that does, and the text written is
`3-j`. -/
theorem C15_format_table_witness :
    SpecFormatRow.applies ⟨.finite 3, .finite (-1)⟩ .re_neg_one ∧
    complex_ld.op_out (fun _ => "3") ⟨.finite 3, .finite (-1)⟩ =
      SpecFormatRow.output (fun _ => "3") ⟨.finite 3, .finite (-1)⟩ .re_neg_one ∧
    (∃! r : SpecFormatRow, r.applies ⟨.finite 3, .finite (-1)⟩) ∧
    complex_ld.op_out (fun _ => "3") ⟨.finite 3, .finite (-1)⟩ = "3-j" := by
  have happ : SpecFormatRow.applies ⟨.finite 3, .finite (-1)⟩ .re_neg_one := by
    simp only [SpecFormatRow.applies, cmp_ne, cmp_eq_finite]
    norm_num
  exact ⟨happ,
    (C15_format_table (fun _ => "3") ⟨.finite 3, .finite (-1)⟩).1 .re_neg_one happ,
    (C15_format_table (fun _ => "3") ⟨.finite 3, .finite (-1)⟩).2.2.1
      (Or.inr LongDouble.noConfusion),
    (C15_format_table (fun _ => "3") ⟨.finite 3, .finite (-1)⟩).2.2.2.2.1 rfl⟩

end ComplexH

end
